import Mathlib

/-! # Verification of the rough-surface scattering engine

A shallow embedding of the TypeScript scattering utilities
(`generateSurfaceProfile`, `generateSurfaceProfile3D`, `calculateScattering`,
`calculateEnergyConcentration`).  JavaScript numbers are modelled as real
numbers, each `Math.random()` draw as a value of an ambient sequence supplied
as an argument, and `Number(x.toFixed(4))` as rounding to four decimal places.
-/

open Real

namespace Reflection

/-- Model of `Number(x.toFixed(4))`: round to four decimal places. -/
noncomputable def toFixed4 (x : ℝ) : ℝ := (round (x * 10000) : ℤ) / 10000

/-- One sample of the scattering distribution: `{ angle, intensity }`. -/
@[ext]
structure ScatterPoint where
  angle : ℝ
  intensity : ℝ

/-- The energy-concentration record `{ e50, e90, e99 }`. -/
@[ext]
structure EnergyStats where
  e50 : ℝ
  e90 : ℝ
  e99 : ℝ

/-! ## ProfileGenerator1D: `generateSurfaceProfile`

```
const rq = ra * 1.25; let prev = 0; const alpha = 0.15;
for (let i = 0; i < length; i++) {
  const noise = (Math.random() - 0.5) * 4 * rq;
  const val = prev * (1 - alpha) + noise * alpha;
  points.push({ x: i, y: val }); prev = val;
}
```
`u k` stands for the `Math.random()` draw of iteration `k`. -/

/-- The value `val` pushed at iteration `i` of `generateSurfaceProfile`. -/
noncomputable def profileHeight (ra : ℝ) (u : ℕ → ℝ) : ℕ → ℝ
  | 0 => 0 * (1 - 0.15) + ((u 0 - 0.5) * 4 * (ra * 1.25)) * 0.15
  | k + 1 =>
      profileHeight ra u k * (1 - 0.15) + ((u (k + 1) - 0.5) * 4 * (ra * 1.25)) * 0.15

/-- `generateSurfaceProfile(ra, length)`: the list of `{x: i, y: val}` points. -/
noncomputable def generateSurfaceProfile (ra : ℝ) (len : ℕ) (u : ℕ → ℝ) :
    List (ℕ × ℝ) :=
  (List.range len).map fun i => (i, profileHeight ra u i)

/-! ## HeightFieldGenerator2D: `generateSurfaceProfile3D`

The raw grid is filled with `(Math.random() - 0.5) * 2 * rq`; the smoothing
pass averages, for each cell, the in-bounds entries of the 3×3 window
(`di, dj ∈ {-1, 0, 1}`, bounds-checked, sum divided by the count). -/

/-- Raw (pre-smoothing) grid cell: `(Math.random() - 0.5) * 2 * rq`. -/
noncomputable def rawGrid3D (ra : ℝ) (rnd : ℕ → ℕ → ℝ) (i j : ℕ) : ℝ :=
  (rnd i j - 0.5) * 2 * (ra * 1.25)

/-- The in-bounds cells of the 3×3 window around `(i, j)`, in the loop order
of the source (`di` outer, `dj` inner, each over `-1, 0, 1`). -/
def cellNbrs (size : ℕ) (i j : ℤ) : List (ℤ × ℤ) :=
  ([-1, 0, 1] : List ℤ).flatMap fun di =>
    ([-1, 0, 1] : List ℤ).flatMap fun dj =>
      if 0 ≤ i + di ∧ i + di < (size : ℤ) ∧ 0 ≤ j + dj ∧ j + dj < (size : ℤ)
      then [(i + di, j + dj)] else []

/-- One smoothed cell: `sum / count` over the in-bounds 3×3 window. -/
noncomputable def smoothedCell (size : ℕ) (grid : ℤ → ℤ → ℝ) (i j : ℤ) : ℝ :=
  ((cellNbrs size i j).map fun p => grid p.1 p.2).sum / (cellNbrs size i j).length

/-- `generateSurfaceProfile3D(ra, size)`: random fill then one box-blur pass. -/
noncomputable def generateSurfaceProfile3D (ra : ℝ) (size : ℕ)
    (rnd : ℕ → ℕ → ℝ) : List (List ℝ) :=
  (List.range size).map fun i : ℕ =>
    (List.range size).map fun j : ℕ =>
      smoothedCell size (fun x y => rawGrid3D ra rnd x.toNat y.toNat)
        (i : ℤ) (j : ℤ)

/-! ## ScatteringEngine: `calculateScattering` -/

/-- `g = ((4π · σ · cos θ) / max(1e-4, λ))²` with `σ = ra · 1.25`. -/
noncomputable def gParam (ra lambda thetaInc : ℝ) : ℝ :=
  let sigma := ra * 1.25
  let thetaRad := thetaInc * π / 180
  let safeLambda := max 0.0001 lambda
  (4 * π * sigma * Real.cos thetaRad / safeLambda) ^ 2

/-- Model resolution: `Auto` classifies by `g`, anything else is used as is. -/
noncomputable def resolveModel (modelType : String) (g : ℝ) : String :=
  if modelType = "Auto" then
    if g < 0.01 then "Rayleigh-Rice"
    else if g > 15 then "Beckmann"
    else "Harvey-Shack"
  else modelType

/-- The per-angle intensity before the `Math.max(0, ·)` clamp, for the already
resolved `activeModel`, at true (pre-rounding) sweep angle `a`. -/
noncomputable def rawIntensity (ra lambda thetaInc : ℝ) (activeModel : String)
    (step slopeFactor : ℝ) (a : ℝ) : ℝ :=
  let thetaRad := thetaInc * π / 180
  let g := gParam ra lambda thetaInc
  let aRad := a * π / 180
  let diff := |a - thetaInc|
  if activeModel = "Rayleigh-Rice" then
    let peakWidth := max (step * 2) (0.2 * (lambda / max 0.00001 (ra * 1000)))
    let specular := Real.exp (-g) * Real.exp (-(diff / peakWidth) ^ 2)
    let diffuse := (1 - Real.exp (-g)) * Real.cos aRad ^ 4
    specular + diffuse * 0.05
  else if activeModel = "Beckmann" then
    let m := max 0.005 (ra / 5 * slopeFactor)
    let cosA := Real.cos aRad
    if cosA > 0 then
      1 / (π * m * m * cosA ^ 4) *
        Real.exp (-Real.tan (aRad - thetaRad) ^ 2 / (2 * m * m))
    else 0
  else
    let spec := Real.exp (-g) * Real.exp (-(diff / (1.5 * slopeFactor)) ^ 2)
    let diffu := (1 - Real.exp (-g)) * Real.cos aRad ^ (1.5 : ℝ)
    spec + diffu * 0.3

/-- The true angles visited by `for (let a = -90; a <= 90; a += step)`:
`-90 + k·step` for `k = 0, …, ⌊180/step⌋`. -/
noncomputable def sweepAngles (step : ℝ) : List ℝ :=
  (List.range (⌊(180 : ℝ) / step⌋₊ + 1)).map fun k : ℕ => -90 + (k : ℝ) * step

/-- `data.reduce((max, item) => (item.intensity > max ? item.intensity : max), 0)`. -/
noncomputable def listMax0 (l : List ℝ) : ℝ :=
  l.foldl (fun m x => if x > m then x else m) 0

/-- `calculateScattering`: sweep, clamp, then normalize by
`(rawMaxIntensity || 1)` and scale by `reflectivity`. -/
noncomputable def calculateScattering (ra lambda thetaInc : ℝ)
    (modelType : String) (step reflectivity slopeFactor : ℝ) :
    List ScatterPoint :=
  let g := gParam ra lambda thetaInc
  let activeModel := resolveModel modelType g
  let data := (sweepAngles step).map fun a =>
    ⟨toFixed4 a, max 0 (rawIntensity ra lambda thetaInc activeModel step slopeFactor a)⟩
  let rawMaxIntensity := listMax0 (data.map ScatterPoint.intensity)
  data.map fun d =>
    ⟨d.angle, d.intensity / (if rawMaxIntensity = 0 then 1 else rawMaxIntensity) * reflectivity⟩

/-! ## EnergyStatistics: `calculateEnergyConcentration` -/

/-- The accumulation loop of `calculateEnergyConcentration`: state is the
remaining (descending-sorted) intensities, the running sum, the next index,
and the three counters (`0` = JS falsy = not yet set); the loop breaks as
soon as the 99 % counter is set. -/
noncomputable def energyLoop (total : ℝ) :
    List ℝ → ℝ → ℕ → ℕ → ℕ → ℕ → ℕ × ℕ × ℕ
  | [], _, _, c50, c90, c99 => (c50, c90, c99)
  | x :: xs, s, i, c50, c90, c99 =>
      let s' := s + x
      let r := s' / total
      let c50' := if c50 = 0 ∧ 0.50 ≤ r then i + 1 else c50
      let c90' := if c90 = 0 ∧ 0.90 ≤ r then i + 1 else c90
      let c99' := if c99 = 0 ∧ 0.99 ≤ r then i + 1 else c99
      if c99' ≠ 0 then (c50', c90', c99')
      else energyLoop total xs s' (i + 1) c50' c90' c99'

/-- `calculateEnergyConcentration(data, step)`. -/
noncomputable def calculateEnergyConcentration (data : List ScatterPoint)
    (step : ℝ) : EnergyStats :=
  let total := (data.map ScatterPoint.intensity).sum
  if total = 0 then ⟨0, 0, 0⟩
  else
    let sorted := data.mergeSort fun p q => decide (q.intensity ≤ p.intensity)
    let c := energyLoop total (sorted.map ScatterPoint.intensity) 0 0 0 0 0
    ⟨toFixed4 (c.1 * step), toFixed4 (c.2.1 * step), toFixed4 (c.2.2 * step)⟩

/-- Specification-side helper: `firstCross total x l s i` is the 1-based count
recorded for threshold `x` by a scan that starts with running sum `s` at index
`i` and never short-circuits (`0` when the threshold is never reached). -/
noncomputable def firstCross (total x : ℝ) : List ℝ → ℝ → ℕ → ℕ
  | [], _, _ => 0
  | y :: ys, s, i =>
      if x ≤ (s + y) / total then i + 1 else firstCross total x ys (s + y) (i + 1)

/-! ## Helper lemmas about rounding -/

theorem round_mono_real {x y : ℝ} (h : x ≤ y) : round x ≤ round y := by
  rw [round_eq, round_eq]
  exact Int.floor_le_floor (by linarith)

theorem toFixed4_mono {x y : ℝ} (h : x ≤ y) : toFixed4 x ≤ toFixed4 y := by
  unfold toFixed4
  have h1 : round (x * 10000) ≤ round (y * 10000) :=
    round_mono_real (by linarith)
  have h2 : ((round (x * 10000) : ℤ) : ℝ) ≤ ((round (y * 10000) : ℤ) : ℝ) := by
    exact_mod_cast h1
  linarith

theorem toFixed4_lt {x y : ℝ} (h : x + 0.0001 ≤ y) : toFixed4 x < toFixed4 y := by
  unfold toFixed4
  have h1 : round (x * 10000) + 1 ≤ round (y * 10000) := by
    have e1 : round (x * 10000 + ((1 : ℤ) : ℝ)) = round (x * 10000) + 1 :=
      round_add_int _ 1
    have e2 : round (x * 10000 + ((1 : ℤ) : ℝ)) ≤ round (y * 10000) :=
      round_mono_real (by push_cast; linarith)
    omega
  have h2 : ((round (x * 10000) : ℤ) : ℝ) + 1 ≤ ((round (y * 10000) : ℤ) : ℝ) := by
    exact_mod_cast h1
  linarith

theorem toFixed4_intCast (n : ℤ) : toFixed4 (n : ℝ) = n := by
  unfold toFixed4
  have e : ((n : ℝ) * 10000) = ((n * 10000 : ℤ) : ℝ) := by push_cast; ring
  rw [e, round_intCast]
  push_cast
  field_simp

theorem toFixed4_zero : toFixed4 0 = 0 := by
  simpa using toFixed4_intCast 0

theorem toFixed4_nonneg {x : ℝ} (h : 0 ≤ x) : 0 ≤ toFixed4 x := by
  have := toFixed4_mono h
  rwa [toFixed4_zero] at this

theorem toFixed4_val {x : ℝ} (n : ℤ) (h1 : (n : ℝ) ≤ x * 10000 + 1 / 2)
    (h2 : x * 10000 + 1 / 2 < n + 1) : toFixed4 x = n / 10000 := by
  unfold toFixed4
  have hfl : ⌊x * 10000 + 1 / 2⌋ = n :=
    Int.floor_eq_iff.mpr ⟨h1, by push_cast; linarith⟩
  rw [round_eq, hfl]

/-! ## Helper lemmas about the running maximum -/

theorem foldlMax_init_le (l : List ℝ) :
    ∀ init : ℝ, init ≤ l.foldl (fun m x => if x > m then x else m) init := by
  induction l with
  | nil => intro init; simp
  | cons y ys ih =>
      intro init
      simp only [List.foldl_cons]
      refine le_trans ?_ (ih _)
      split <;> [linarith; exact le_rfl]

theorem le_foldlMax (l : List ℝ) :
    ∀ init : ℝ, ∀ x ∈ l, x ≤ l.foldl (fun m x => if x > m then x else m) init := by
  induction l with
  | nil => intro init x hx; simp at hx
  | cons y ys ih =>
      intro init x hx
      simp only [List.foldl_cons]
      rcases List.mem_cons.mp hx with h | h
      · subst h
        refine le_trans ?_ (foldlMax_init_le ys _)
        split <;> [exact le_rfl; linarith [not_lt.mp (by assumption)]]
      · exact ih _ x h

theorem foldlMax_eq_init_or_mem (l : List ℝ) :
    ∀ init : ℝ,
      l.foldl (fun m x => if x > m then x else m) init = init ∨
        l.foldl (fun m x => if x > m then x else m) init ∈ l := by
  induction l with
  | nil => intro init; simp
  | cons y ys ih =>
      intro init
      simp only [List.foldl_cons]
      by_cases hy : y > init
      · rw [if_pos hy]
        rcases ih y with h | h
        · rw [h]; exact Or.inr (List.mem_cons_self _ _)
        · exact Or.inr (List.mem_cons_of_mem _ h)
      · rw [if_neg hy]
        rcases ih init with h | h
        · exact Or.inl h
        · exact Or.inr (List.mem_cons_of_mem _ h)

theorem listMax0_nonneg (l : List ℝ) : 0 ≤ listMax0 l :=
  foldlMax_init_le l 0

theorem le_listMax0 {l : List ℝ} {x : ℝ} (hx : x ∈ l) : x ≤ listMax0 l :=
  le_foldlMax l 0 x hx

theorem listMax0_eq_zero_or_mem (l : List ℝ) : listMax0 l = 0 ∨ listMax0 l ∈ l :=
  foldlMax_eq_init_or_mem l 0

/-! ## Helper lemmas about the angular sweep -/

theorem sweepAngles_length (step : ℝ) :
    (sweepAngles step).length = ⌊(180 : ℝ) / step⌋₊ + 1 := by
  unfold sweepAngles
  rw [List.length_map, List.length_range]

theorem sweepAngles_get (step : ℝ) (k : ℕ)
    (hk : k < (sweepAngles step).length) :
    (sweepAngles step).get ⟨k, hk⟩ = -90 + k * step := by
  simp only [sweepAngles, List.get_eq_getElem, List.getElem_map, List.getElem_range]

/-- Faithfulness of the sweep encoding: for `0 < step`, the index `k` is
visited exactly when the loop guard `-90 + k·step ≤ 90` holds. -/
theorem sweepAngles_loop_condition {step : ℝ} (hstep : 0 < step) (k : ℕ) :
    k < (sweepAngles step).length ↔ -90 + k * step ≤ 90 := by
  rw [sweepAngles_length]
  have h0 : (0 : ℝ) ≤ 180 / step := by positivity
  constructor
  · intro hk
    have hkN : k ≤ ⌊(180 : ℝ) / step⌋₊ := by omega
    have h1 : (k : ℝ) ≤ 180 / step :=
      le_trans (by exact_mod_cast Nat.cast_le.mpr hkN) (Nat.floor_le h0)
    have h2 : (k : ℝ) * step ≤ 180 := by
      calc (k : ℝ) * step ≤ 180 / step * step := by
            exact mul_le_mul_of_nonneg_right h1 hstep.le
        _ = 180 := by field_simp
    linarith
  · intro hk
    have h1 : (k : ℝ) * step ≤ 180 := by linarith
    have h2 : (k : ℝ) ≤ 180 / step := by
      rw [le_div_iff₀ hstep]; exact h1
    have h3 : k ≤ ⌊(180 : ℝ) / step⌋₊ := Nat.le_floor h2
    omega

theorem sweepAngles_mem_bounds {step : ℝ} (hstep : 0 < step) {a : ℝ}
    (ha : a ∈ sweepAngles step) : -90 ≤ a ∧ a ≤ 90 := by
  unfold sweepAngles at ha
  rw [List.mem_map] at ha
  obtain ⟨k, hk, rfl⟩ := ha
  rw [List.mem_range] at hk
  have hnn : (0 : ℝ) ≤ (k : ℝ) * step := mul_nonneg (Nat.cast_nonneg k) hstep.le
  refine ⟨by linarith, ?_⟩
  have hcond := (sweepAngles_loop_condition hstep k).mp
    (by rw [sweepAngles_length]; exact hk)
  linarith

/-! ## Claim C9: the 1-D profile generator -/

/-- C9: for every `ra > 0` and integer `length > 0`, `generateSurfaceProfile`
returns exactly `length` pairs with x-indices `0 .. length-1`, and each height
satisfies `value = prev·(1 − 0.15) + noise·0.15` with `prev` initialized to
`0`, the emitted value becoming the next `prev`, and
`noise = (U(0,1) − 0.5)·4·(1.25·ra)`; the function is total (never errors). -/
theorem generateSurfaceProfile_spec (ra : ℝ) (len : ℕ) (u : ℕ → ℝ)
    (hra : 0 < ra) (hlen : 0 < len) :
    (generateSurfaceProfile ra len u).length = len ∧
    (∀ k (hk : k < (generateSurfaceProfile ra len u).length),
      ((generateSurfaceProfile ra len u).get ⟨k, hk⟩).1 = k) ∧
    (∀ k (hk : k < (generateSurfaceProfile ra len u).length),
      ((generateSurfaceProfile ra len u).get ⟨k, hk⟩).2 =
        (if h0 : k = 0 then 0
          else ((generateSurfaceProfile ra len u).get ⟨k - 1, by omega⟩).2) *
            (1 - 0.15) + ((u k - 0.5) * 4 * (1.25 * ra)) * 0.15) := by
  have hlength : (generateSurfaceProfile ra len u).length = len := by
    unfold generateSurfaceProfile
    rw [List.length_map, List.length_range]
  have hget : ∀ k (hk : k < (generateSurfaceProfile ra len u).length),
      (generateSurfaceProfile ra len u).get ⟨k, hk⟩ = (k, profileHeight ra u k) := by
    intro k hk
    simp only [generateSurfaceProfile, List.get_eq_getElem, List.getElem_map,
      List.getElem_range]
  refine ⟨hlength, fun k hk => by rw [hget k hk], fun k hk => ?_⟩
  rw [hget k hk]
  cases k with
  | zero =>
      rw [dif_pos rfl]
      show profileHeight ra u 0 = _
      rw [profileHeight]
      ring
  | succ n =>
      rw [dif_neg (Nat.succ_ne_zero n)]
      rw [hget (n + 1 - 1) (by omega)]
      simp only [Nat.add_sub_cancel]
      show profileHeight ra u (n + 1) = _
      rw [profileHeight]
      ring

/-- Witness for C9 at `ra = 1`, `length = 3`, constant draws `1`. -/
theorem generateSurfaceProfile_spec_witness :
    (0 : ℝ) < 1 ∧ 0 < 3 ∧ (generateSurfaceProfile 1 3 (fun _ => 1)).length = 3 :=
  ⟨by norm_num, by norm_num,
    (generateSurfaceProfile_spec 1 3 (fun _ => 1) (by norm_num) (by norm_num)).1⟩

/-! ## Claim C10: Harvey-Shack is the catch-all branch -/

/-- C10: for any `modelType` tag other than `Auto`, `Rayleigh-Rice`, and
`Beckmann` (in particular `Harvey-Shack` and any unrecognized string), the
resolution keeps the tag and every sampled angle is evaluated with the
Harvey-Shack formula
`exp(−g)·exp(−(diff/(1.5·slopeFactor))²) + 0.3·(1 − exp(−g))·cos(aRad)^1.5`. -/
theorem harveyShack_catchall (mt : String)
    (h1 : mt ≠ "Auto") (h2 : mt ≠ "Rayleigh-Rice") (h3 : mt ≠ "Beckmann")
    (ra lambda thetaInc step slopeFactor : ℝ) :
    resolveModel mt (gParam ra lambda thetaInc) = mt ∧
    ∀ a : ℝ,
      rawIntensity ra lambda thetaInc mt step slopeFactor a =
        Real.exp (-gParam ra lambda thetaInc) *
            Real.exp (-(|a - thetaInc| / (1.5 * slopeFactor)) ^ 2) +
          0.3 * ((1 - Real.exp (-gParam ra lambda thetaInc)) *
            Real.cos (a * π / 180) ^ (1.5 : ℝ)) := by
  constructor
  · unfold resolveModel
    rw [if_neg h1]
  · intro a
    unfold rawIntensity
    rw [if_neg h2, if_neg h3]
    ring

/-- Witness for C10 at the unrecognized tag `"Custom"`. -/
theorem harveyShack_catchall_witness :
    resolveModel "Custom" (gParam 1 0.5 0) = "Custom" :=
  (harveyShack_catchall "Custom" (by decide) (by decide) (by decide)
    1 0.5 0 1 1).1

/-! ## Claim C2: model resolution and the regime boundary -/

theorem gParam_def (ra lambda thetaInc : ℝ) :
    gParam ra lambda thetaInc =
      (4 * π * (ra * 1.25) * Real.cos (thetaInc * π / 180) /
        max 0.0001 lambda) ^ 2 := rfl

/-- C2: with `modelType = Auto` the engine selects `Rayleigh-Rice` when
`g < 0.01`, `Beckmann` when `g > 15`, and `Harvey-Shack` otherwise, where
`g = (4π·1.25·ra·cos(θ_rad) / max(1e-4, λ))²`; a non-`Auto` tag is used
directly.  At `ra = 0.0000005, λ = 0.5, θ = 0` the computed `g` is below
`0.01` (selecting `Rayleigh-Rice`), and at `ra = 3.2` with the same `λ, θ`
it exceeds `15` (selecting `Beckmann`). -/
theorem modelResolution_spec (mt : String) (g : ℝ) :
    (mt ≠ "Auto" → resolveModel mt g = mt) ∧
    (g < 0.01 → resolveModel "Auto" g = "Rayleigh-Rice") ∧
    (15 < g → resolveModel "Auto" g = "Beckmann") ∧
    (0.01 ≤ g → g ≤ 15 → resolveModel "Auto" g = "Harvey-Shack") ∧
    (∀ ra lambda thetaInc : ℝ,
      gParam ra lambda thetaInc =
        (4 * π * (1.25 * ra) * Real.cos (thetaInc * π / 180) /
          max 0.0001 lambda) ^ 2) ∧
    (gParam 0.0000005 0.5 0 < 0.01 ∧
      resolveModel "Auto" (gParam 0.0000005 0.5 0) = "Rayleigh-Rice") ∧
    (15 < gParam 3.2 0.5 0 ∧
      resolveModel "Auto" (gParam 3.2 0.5 0) = "Beckmann") := by
  have hsmall : gParam 0.0000005 0.5 0 < 0.01 := by
    rw [gParam_def, show (0 : ℝ) * π / 180 = 0 by ring, Real.cos_zero,
      max_eq_right (by norm_num : (0.0001 : ℝ) ≤ 0.5)]
    have h1 : π * π < 3.15 * 3.15 := by nlinarith [pi_lt_d2, pi_pos]
    have he : (4 * π * (0.0000005 * 1.25) * 1 / 0.5) ^ 2 =
        π * π * (25 / 10 ^ 12) := by ring
    rw [he]
    nlinarith [h1]
  have hbig : 15 < gParam 3.2 0.5 0 := by
    rw [gParam_def, show (0 : ℝ) * π / 180 = 0 by ring, Real.cos_zero,
      max_eq_right (by norm_num : (0.0001 : ℝ) ≤ 0.5)]
    have h2 : 3.14 * 3.14 < π * π := by nlinarith [pi_gt_d2, pi_pos]
    have he : (4 * π * (3.2 * 1.25) * 1 / 0.5) ^ 2 = π * π * 1024 := by ring
    rw [he]
    nlinarith [h2]
  have hauto : ∀ x : ℝ, x < 0.01 → resolveModel "Auto" x = "Rayleigh-Rice" := by
    intro x hx
    unfold resolveModel
    rw [if_pos rfl, if_pos hx]
  have hbeck : ∀ x : ℝ, 15 < x → resolveModel "Auto" x = "Beckmann" := by
    intro x hx
    unfold resolveModel
    rw [if_pos rfl, if_neg (by linarith), if_pos hx]
  refine ⟨fun h => by unfold resolveModel; rw [if_neg h],
    hauto g, hbeck g, ?_, ?_, ⟨hsmall, hauto _ hsmall⟩, ⟨hbig, hbeck _ hbig⟩⟩
  · intro h1 h2
    unfold resolveModel
    rw [if_pos rfl, if_neg (by linarith), if_neg (by linarith)]
  · intro ra lambda thetaInc
    rw [gParam_def]
    ring

/-- Witness for C2 at `g = 0`. -/
theorem modelResolution_spec_witness :
    (0 : ℝ) < 0.01 ∧ resolveModel "Auto" 0 = "Rayleigh-Rice" :=
  ⟨by norm_num, (modelResolution_spec "Auto" 0).2.1 (by norm_num)⟩

/-! ## Claim C3: Beckmann shadowing cutoff -/

/-- C3: under the Beckmann model every angle with `cos(aRad) ≤ 0` has raw
intensity exactly `0` (in the sweep those are the angles with `|a| ≥ 90`),
and every angle with `cos(aRad) > 0` evaluates to
`(1/(π·m²·cos(aRad)⁴))·exp(−tan(aRad − θ)²/(2m²))` with
`m = max(0.005, (ra/5)·slopeFactor)`. -/
theorem beckmann_shadowing_spec (ra lambda thetaInc step slopeFactor : ℝ)
    (hstep : 0 < step) :
    (∀ a : ℝ, Real.cos (a * π / 180) ≤ 0 →
      rawIntensity ra lambda thetaInc "Beckmann" step slopeFactor a = 0) ∧
    (∀ a ∈ sweepAngles step, 90 ≤ |a| →
      rawIntensity ra lambda thetaInc "Beckmann" step slopeFactor a = 0) ∧
    (∀ a : ℝ, 0 < Real.cos (a * π / 180) →
      rawIntensity ra lambda thetaInc "Beckmann" step slopeFactor a =
        1 / (π * max 0.005 (ra / 5 * slopeFactor) ^ 2 *
            Real.cos (a * π / 180) ^ 4) *
          Real.exp (-Real.tan (a * π / 180 - thetaInc * π / 180) ^ 2 /
            (2 * max 0.005 (ra / 5 * slopeFactor) ^ 2))) := by
  have hzero : ∀ a : ℝ, Real.cos (a * π / 180) ≤ 0 →
      rawIntensity ra lambda thetaInc "Beckmann" step slopeFactor a = 0 := by
    intro a ha
    unfold rawIntensity
    rw [if_neg (by decide), if_pos rfl, if_neg (not_lt.mpr ha)]
  refine ⟨hzero, ?_, ?_⟩
  · intro a ha h90
    obtain ⟨hlo, hhi⟩ := sweepAngles_mem_bounds hstep ha
    have : a = 90 ∨ a = -90 := by
      rcases le_or_lt 0 a with hpos | hneg
      · left; rw [abs_of_nonneg hpos] at h90; linarith
      · right; rw [abs_of_neg hneg] at h90; linarith
    rcases this with rfl | rfl
    · exact hzero 90 (by
        rw [show (90 : ℝ) * π / 180 = π / 2 by ring, Real.cos_pi_div_two])
    · exact hzero (-90) (by
        rw [show (-90 : ℝ) * π / 180 = -(π / 2) by ring, Real.cos_neg,
          Real.cos_pi_div_two])
  · intro a ha
    unfold rawIntensity
    rw [if_neg (by decide), if_pos rfl, if_pos ha]
    have hm : (max 0.005 (ra / 5 * slopeFactor) : ℝ) ≠ 0 := by
      have : (0.005 : ℝ) ≤ max 0.005 (ra / 5 * slopeFactor) := le_max_left _ _
      intro h
      rw [h] at this
      norm_num at this
    have harg : -Real.tan (a * π / 180 - thetaInc * π / 180) ^ 2 /
          (2 * max 0.005 (ra / 5 * slopeFactor) *
            max 0.005 (ra / 5 * slopeFactor)) =
        -Real.tan (a * π / 180 - thetaInc * π / 180) ^ 2 /
          (2 * max 0.005 (ra / 5 * slopeFactor) ^ 2) := by
      ring
    rw [harg]
    ring

/-- Witness for C3 at `a = 90` in the unit-step sweep. -/
theorem beckmann_shadowing_spec_witness :
    Real.cos (90 * π / 180) ≤ 0 ∧
      rawIntensity 1 0.5 0 "Beckmann" 1 1 90 = 0 := by
  have hc : Real.cos (90 * π / 180) ≤ 0 := by
    rw [show (90 : ℝ) * π / 180 = π / 2 by ring, Real.cos_pi_div_two]
  exact ⟨hc, (beckmann_shadowing_spec 1 0.5 0 1 1 (by norm_num)).1 90 hc⟩

/-! ## Claim C1: normalization — peak equals reflectivity -/

/-- The clamped raw intensities of the sweep (the `data[..].intensity` values
just before the normalization pass). -/
noncomputable def rawIntensities (ra lambda thetaInc : ℝ) (mt : String)
    (step slopeFactor : ℝ) : List ℝ :=
  (sweepAngles step).map fun a =>
    max 0 (rawIntensity ra lambda thetaInc
      (resolveModel mt (gParam ra lambda thetaInc)) step slopeFactor a)

/-- Unfolding of `calculateScattering` into one `map` over the sweep. -/
theorem calculateScattering_eq (ra lambda thetaInc : ℝ) (mt : String)
    (step reflectivity slopeFactor : ℝ) :
    calculateScattering ra lambda thetaInc mt step reflectivity slopeFactor =
      (sweepAngles step).map fun a =>
        ⟨toFixed4 a,
          max 0 (rawIntensity ra lambda thetaInc
              (resolveModel mt (gParam ra lambda thetaInc)) step slopeFactor a) /
            (if listMax0 (rawIntensities ra lambda thetaInc mt step slopeFactor) = 0
              then 1
              else listMax0 (rawIntensities ra lambda thetaInc mt step slopeFactor)) *
            reflectivity⟩ := by
  unfold calculateScattering rawIntensities
  simp only [List.map_map]
  rfl

/-- C1: every returned intensity is `(raw/M)·reflectivity` (divisor `1` when
the raw maximum `M` is `0`); when `M = 0` every entry is `0`, and otherwise
the peak intensity equals `reflectivity` exactly. -/
theorem scattering_normalization (ra lambda thetaInc : ℝ) (mt : String)
    (step reflectivity slopeFactor : ℝ) (hstep : 0 < step)
    (hrefl : 0 ≤ reflectivity) :
    ((calculateScattering ra lambda thetaInc mt step reflectivity
        slopeFactor).map ScatterPoint.intensity =
      (rawIntensities ra lambda thetaInc mt step slopeFactor).map fun r =>
        r / (if listMax0 (rawIntensities ra lambda thetaInc mt step slopeFactor) = 0
              then 1
              else listMax0 (rawIntensities ra lambda thetaInc mt step slopeFactor)) *
          reflectivity) ∧
    (listMax0 (rawIntensities ra lambda thetaInc mt step slopeFactor) = 0 →
      ∀ p ∈ calculateScattering ra lambda thetaInc mt step reflectivity slopeFactor,
        p.intensity = 0) ∧
    (listMax0 (rawIntensities ra lambda thetaInc mt step slopeFactor) ≠ 0 →
      (∀ p ∈ calculateScattering ra lambda thetaInc mt step reflectivity slopeFactor,
        p.intensity ≤ reflectivity) ∧
      ∃ p ∈ calculateScattering ra lambda thetaInc mt step reflectivity slopeFactor,
        p.intensity = reflectivity) := by
  set M := listMax0 (rawIntensities ra lambda thetaInc mt step slopeFactor) with hM
  refine ⟨?_, ?_, ?_⟩
  · rw [calculateScattering_eq]
    unfold rawIntensities
    rw [List.map_map, List.map_map]
    rfl
  · intro hM0 p hp
    rw [calculateScattering_eq] at hp
    rw [List.mem_map] at hp
    obtain ⟨a, ha, rfl⟩ := hp
    have hmem : max 0 (rawIntensity ra lambda thetaInc
        (resolveModel mt (gParam ra lambda thetaInc)) step slopeFactor a) ∈
        rawIntensities ra lambda thetaInc mt step slopeFactor := by
      unfold rawIntensities
      exact List.mem_map_of_mem _ ha
    have hle := le_listMax0 hmem
    rw [← hM] at hle
    rw [hM0] at hle
    have hge : (0 : ℝ) ≤ max 0 (rawIntensity ra lambda thetaInc
        (resolveModel mt (gParam ra lambda thetaInc)) step slopeFactor a) :=
      le_max_left _ _
    have heq : max 0 (rawIntensity ra lambda thetaInc
        (resolveModel mt (gParam ra lambda thetaInc)) step slopeFactor a) = 0 :=
      le_antisymm hle hge
    show max 0 (rawIntensity ra lambda thetaInc
        (resolveModel mt (gParam ra lambda thetaInc)) step slopeFactor a) /
        (if M = 0 then 1 else M) * reflectivity = 0
    rw [heq, zero_div, zero_mul]
  · intro hMne
    have hMpos : 0 < M := by
      rcases lt_or_eq_of_le (hM ▸ listMax0_nonneg _) with h | h
      · exact h
      · exact absurd h.symm hMne
    constructor
    · intro p hp
      rw [calculateScattering_eq] at hp
      rw [List.mem_map] at hp
      obtain ⟨a, ha, rfl⟩ := hp
      have hmem : max 0 (rawIntensity ra lambda thetaInc
          (resolveModel mt (gParam ra lambda thetaInc)) step slopeFactor a) ∈
          rawIntensities ra lambda thetaInc mt step slopeFactor := by
        unfold rawIntensities
        exact List.mem_map_of_mem _ ha
      have hle := le_listMax0 hmem
      rw [← hM] at hle
      show max 0 (rawIntensity ra lambda thetaInc
          (resolveModel mt (gParam ra lambda thetaInc)) step slopeFactor a) /
          (if M = 0 then 1 else M) * reflectivity ≤ reflectivity
      rw [if_neg hMne]
      have h1 : max 0 (rawIntensity ra lambda thetaInc
          (resolveModel mt (gParam ra lambda thetaInc)) step slopeFactor a) / M ≤ 1 :=
        (div_le_one hMpos).mpr hle
      calc max 0 (rawIntensity ra lambda thetaInc
            (resolveModel mt (gParam ra lambda thetaInc)) step slopeFactor a) / M *
            reflectivity
          ≤ 1 * reflectivity := mul_le_mul_of_nonneg_right h1 hrefl
        _ = reflectivity := one_mul _
    · have hmem : M ∈ rawIntensities ra lambda thetaInc mt step slopeFactor := by
        rcases listMax0_eq_zero_or_mem
          (rawIntensities ra lambda thetaInc mt step slopeFactor) with h | h
        · exact absurd (hM.trans h) hMne
        · rwa [hM]
      unfold rawIntensities at hmem
      rw [List.mem_map] at hmem
      obtain ⟨a, ha, hval⟩ := hmem
      refine ⟨⟨toFixed4 a, max 0 (rawIntensity ra lambda thetaInc
        (resolveModel mt (gParam ra lambda thetaInc)) step slopeFactor a) /
          (if M = 0 then 1 else M) * reflectivity⟩, ?_, ?_⟩
      · rw [calculateScattering_eq]
        exact List.mem_map_of_mem _ ha
      · show max 0 (rawIntensity ra lambda thetaInc
            (resolveModel mt (gParam ra lambda thetaInc)) step slopeFactor a) /
            (if M = 0 then 1 else M) * reflectivity = reflectivity
        rw [if_neg hMne, hval, div_self (ne_of_gt hMpos), one_mul]

/-- Witness for C1 at `ra = 1, λ = 0.5, θ = 0, modelType = "Auto", step = 1,
reflectivity = 0.9, slopeFactor = 1`. -/
theorem scattering_normalization_witness :
    (0 : ℝ) < 1 ∧ (0 : ℝ) ≤ 0.9 ∧
    (((calculateScattering 1 0.5 0 "Auto" 1 0.9 1).map ScatterPoint.intensity =
      (rawIntensities 1 0.5 0 "Auto" 1 1).map fun r =>
        r / (if listMax0 (rawIntensities 1 0.5 0 "Auto" 1 1) = 0
              then 1 else listMax0 (rawIntensities 1 0.5 0 "Auto" 1 1)) * 0.9) ∧
    (listMax0 (rawIntensities 1 0.5 0 "Auto" 1 1) = 0 →
      ∀ p ∈ calculateScattering 1 0.5 0 "Auto" 1 0.9 1, p.intensity = 0) ∧
    (listMax0 (rawIntensities 1 0.5 0 "Auto" 1 1) ≠ 0 →
      (∀ p ∈ calculateScattering 1 0.5 0 "Auto" 1 0.9 1,
        p.intensity ≤ 0.9) ∧
      ∃ p ∈ calculateScattering 1 0.5 0 "Auto" 1 0.9 1,
        p.intensity = 0.9)) :=
  ⟨by norm_num, by norm_num,
    scattering_normalization 1 0.5 0 "Auto" 1 0.9 1 (by norm_num) (by norm_num)⟩

/-! ## Claim C4: structure of the angular sweep -/

/-- The returned angle column is the rounded sweep. -/
theorem calculateScattering_angles (ra lambda thetaInc : ℝ) (mt : String)
    (step reflectivity slopeFactor : ℝ) :
    (calculateScattering ra lambda thetaInc mt step reflectivity
        slopeFactor).map ScatterPoint.angle =
      (List.range (⌊(180 : ℝ) / step⌋₊ + 1)).map
        (fun k : ℕ => toFixed4 (-90 + (k : ℝ) * step)) := by
  rw [calculateScattering_eq]
  rw [List.map_map]
  unfold sweepAngles
  rw [List.map_map]
  rfl

/-- C4 (amended: for `step ≥ 0.0001`, since the returned angles are rounded
to four decimals): `calculateScattering` returns `⌊180/step⌋ + 1` samples at
the angles `-90 + k·step` (rounded to 4 decimals), strictly ascending, all
within `[-90, 90]`, starting at `-90`, and with the last true angle within
`step` of `90`; for `step = 1` this is exactly 181 samples at the integer
angles `-90 .. 90`. -/
theorem sweep_structure (ra lambda thetaInc : ℝ) (mt : String)
    (step reflectivity slopeFactor : ℝ) (hstep : 0.0001 ≤ step) :
    (calculateScattering ra lambda thetaInc mt step reflectivity
        slopeFactor).length = ⌊(180 : ℝ) / step⌋₊ + 1 ∧
    ((calculateScattering ra lambda thetaInc mt step reflectivity
        slopeFactor).map ScatterPoint.angle =
      (List.range (⌊(180 : ℝ) / step⌋₊ + 1)).map
        (fun k : ℕ => toFixed4 (-90 + (k : ℝ) * step))) ∧
    List.Chain' (· < ·)
      ((calculateScattering ra lambda thetaInc mt step reflectivity
        slopeFactor).map ScatterPoint.angle) ∧
    (∀ p ∈ calculateScattering ra lambda thetaInc mt step reflectivity
        slopeFactor, -90 ≤ p.angle ∧ p.angle ≤ 90) ∧
    ((calculateScattering ra lambda thetaInc mt step reflectivity
        slopeFactor).map ScatterPoint.angle).head? = some (-90) ∧
    90 - step < -90 + (⌊(180 : ℝ) / step⌋₊ : ℝ) * step ∧
    (step = 1 →
      (calculateScattering ra lambda thetaInc mt step reflectivity
        slopeFactor).length = 181 ∧
      (calculateScattering ra lambda thetaInc mt step reflectivity
          slopeFactor).map ScatterPoint.angle =
        (List.range 181).map (fun k : ℕ => (k : ℝ) - 90)) := by
  have hstep0 : (0 : ℝ) < step := lt_of_lt_of_le (by norm_num) hstep
  have hlen : (calculateScattering ra lambda thetaInc mt step reflectivity
      slopeFactor).length = ⌊(180 : ℝ) / step⌋₊ + 1 := by
    rw [calculateScattering_eq, List.length_map, sweepAngles_length]
  have hang := calculateScattering_angles ra lambda thetaInc mt step
    reflectivity slopeFactor
  have hneg90 : toFixed4 (-90 : ℝ) = -90 := by
    have := toFixed4_intCast (-90)
    push_cast at this
    convert this using 2 <;> norm_num
  refine ⟨hlen, hang, ?_, ?_, ?_, ?_, ?_⟩
  · rw [hang, List.chain'_map, List.chain'_range_succ]
    intro m hm
    apply toFixed4_lt
    have : (m : ℝ) + 1 = ((m.succ : ℕ) : ℝ) := by push_cast; ring
    nlinarith [this]
  · intro p hp
    rw [calculateScattering_eq] at hp
    rw [List.mem_map] at hp
    obtain ⟨a, ha, rfl⟩ := hp
    obtain ⟨hlo, hhi⟩ := sweepAngles_mem_bounds hstep0 ha
    constructor
    · show -90 ≤ toFixed4 a
      calc (-90 : ℝ) = toFixed4 (-90) := hneg90.symm
        _ ≤ toFixed4 a := toFixed4_mono hlo
    · show toFixed4 a ≤ 90
      have h90 : toFixed4 (90 : ℝ) = 90 := by
        have := toFixed4_intCast 90
        push_cast at this
        convert this using 2 <;> norm_num
      calc toFixed4 a ≤ toFixed4 90 := toFixed4_mono hhi
        _ = 90 := h90
  · rw [hang]
    have : List.range (⌊(180 : ℝ) / step⌋₊ + 1) =
        0 :: (List.range ⌊(180 : ℝ) / step⌋₊).map Nat.succ :=
      List.range_succ_eq_map _
    rw [this]
    simp only [List.map_cons, List.head?_cons]
    rw [show (-90 : ℝ) + (0 : ℕ) * step = -90 by norm_num, hneg90]
  · have hfl : (180 : ℝ) / step < ⌊(180 : ℝ) / step⌋₊ + 1 :=
      Nat.lt_floor_add_one _
    have h1 : 180 < (⌊(180 : ℝ) / step⌋₊ + 1) * step := by
      have := mul_lt_mul_of_pos_right hfl hstep0
      rwa [div_mul_cancel₀ _ (ne_of_gt hstep0)] at this
    nlinarith [h1]
  · intro hstep1
    subst hstep1
    have h180 : ⌊(180 : ℝ) / 1⌋₊ = 180 := by norm_num
    refine ⟨by rw [hlen, h180], ?_⟩
    rw [hang, h180]
    apply List.map_congr_left
    intro k hk
    have : (-90 : ℝ) + (k : ℝ) * 1 = (((k : ℤ) - 90 : ℤ) : ℝ) := by
      push_cast; ring
    rw [this, toFixed4_intCast]
    push_cast; ring

/-- Witness for C4 at `step = 1`. -/
theorem sweep_structure_witness :
    (0.0001 : ℝ) ≤ 1 ∧
      (calculateScattering 0.8 0.5 0 "Auto" 1 1 1).length =
        ⌊(180 : ℝ) / 1⌋₊ + 1 :=
  ⟨by norm_num, (sweep_structure 0.8 0.5 0 "Auto" 1 1 1 (by norm_num)).1⟩

/-- Counterexample to C4 as stated: with the tiny step `0.00004` the
four-decimal rounding of the returned angles collapses the first two samples
to the same angle `-90`, so the output is not strictly ascending. -/
theorem sweep_strict_ascending_cx :
    ((calculateScattering 1 0.5 0 "Auto" 0.00004 1 1).map
        ScatterPoint.angle).take 2 = [-90, -90] ∧
    ¬ List.Chain' (· < ·)
      ((calculateScattering 1 0.5 0 "Auto" 0.00004 1 1).map
        ScatterPoint.angle) := by
  have hN : 1 ≤ ⌊(180 : ℝ) / 0.00004⌋₊ := by
    apply Nat.le_floor
    norm_num
  have hang := calculateScattering_angles 1 0.5 0 "Auto" 0.00004 1 1
  have hv0 : toFixed4 ((-90 : ℝ) + (0 : ℕ) * 0.00004) = -90 := by
    rw [toFixed4_val (-900000) (by norm_num) (by norm_num)]
    norm_num
  have hv1 : toFixed4 ((-90 : ℝ) + (1 : ℕ) * 0.00004) = -90 := by
    rw [toFixed4_val (-900000) (by norm_num) (by norm_num)]
    norm_num
  have htake : ((calculateScattering 1 0.5 0 "Auto" 0.00004 1 1).map
      ScatterPoint.angle).take 2 = [-90, -90] := by
    rw [hang, ← List.map_take, List.take_range,
      min_eq_left (by omega : 2 ≤ ⌊(180 : ℝ) / 0.00004⌋₊ + 1)]
    rw [show List.range 2 = [0, 1] from rfl]
    simp only [List.map_cons, List.map_nil]
    rw [hv0, hv1]
  refine ⟨htake, fun hch => ?_⟩
  have h2 : 2 ≤ ((calculateScattering 1 0.5 0 "Auto" 0.00004 1 1).map
      ScatterPoint.angle).length := by
    rw [hang, List.length_map, List.length_range]
    omega
  have := List.chain'_iff_get.mp hch 0 (by omega)
  have hg0 : ((calculateScattering 1 0.5 0 "Auto" 0.00004 1 1).map
      ScatterPoint.angle).get ⟨0, by omega⟩ = -90 := by
    have := congrArg (fun l => l.get? 0) htake
    simp only [List.get?_take (by norm_num : 0 < 2)] at this
    rw [List.get?_eq_get (by omega)] at this
    simp only [List.get?_cons_zero, Option.some_inj] at this
    exact this
  have hg1 : ((calculateScattering 1 0.5 0 "Auto" 0.00004 1 1).map
      ScatterPoint.angle).get ⟨1, by omega⟩ = -90 := by
    have := congrArg (fun l => l.get? 1) htake
    simp only [List.get?_take (by norm_num : 1 < 2)] at this
    rw [List.get?_eq_get (by omega)] at this
    simp only [List.get?_cons_succ, List.get?_cons_zero, Option.some_inj] at this
    exact this
  rw [hg0, hg1] at this
  exact lt_irrefl _ this

/-! ## Claims C5 and C6: energy concentration -/

/-- The loop of `calculateEnergyConcentration` computes, for each threshold,
the first 1-based index at which the running ratio reaches it; the 99 %
short-circuit never changes the recorded counters. -/
theorem energyLoop_eq (total : ℝ) (l : List ℝ) :
    ∀ (s : ℝ) (i c50 c90 : ℕ),
      energyLoop total l s i c50 c90 0 =
        (if c50 = 0 then firstCross total 0.50 l s i else c50,
         if c90 = 0 then firstCross total 0.90 l s i else c90,
         firstCross total 0.99 l s i) := by
  induction l with
  | nil =>
      intro s i c50 c90
      simp only [energyLoop, firstCross]
      by_cases hc50 : c50 = 0 <;> by_cases hc90 : c90 = 0 <;> simp [hc50, hc90]
  | cons y ys ih =>
      intro s i c50 c90
      simp only [energyLoop, firstCross, eq_self_iff_true, true_and]
      by_cases h99 : (0.99 : ℝ) ≤ (s + y) / total
      · have h90 : (0.90 : ℝ) ≤ (s + y) / total := by linarith
        have h50 : (0.50 : ℝ) ≤ (s + y) / total := by linarith
        rw [if_pos h99, if_pos (by omega : i + 1 ≠ 0)]
        by_cases hc50 : c50 = 0 <;> by_cases hc90 : c90 = 0 <;>
          simp [hc50, hc90, h50, h90, h99]
      · rw [if_neg h99]
        rw [if_neg (by simp : ¬ ((0 : ℕ) ≠ 0))]
        rw [ih]
        by_cases hc50 : c50 = 0 <;> by_cases hc90 : c90 = 0 <;>
          by_cases h50 : (0.50 : ℝ) ≤ (s + y) / total <;>
            by_cases h90 : (0.90 : ℝ) ≤ (s + y) / total <;>
              simp [hc50, hc90, h50, h90, h99]

/-- Closed form of `calculateEnergyConcentration` in terms of `firstCross`. -/
theorem calcEnergy_eq (data : List ScatterPoint) (step : ℝ) :
    calculateEnergyConcentration data step =
      if (data.map ScatterPoint.intensity).sum = 0 then ⟨0, 0, 0⟩
      else
        ⟨toFixed4 (firstCross ((data.map ScatterPoint.intensity).sum) 0.50
            ((data.mergeSort fun p q => decide (q.intensity ≤ p.intensity)).map
              ScatterPoint.intensity) 0 0 * step),
          toFixed4 (firstCross ((data.map ScatterPoint.intensity).sum) 0.90
            ((data.mergeSort fun p q => decide (q.intensity ≤ p.intensity)).map
              ScatterPoint.intensity) 0 0 * step),
          toFixed4 (firstCross ((data.map ScatterPoint.intensity).sum) 0.99
            ((data.mergeSort fun p q => decide (q.intensity ≤ p.intensity)).map
              ScatterPoint.intensity) 0 0 * step)⟩ := by
  simp only [calculateEnergyConcentration]
  by_cases h0 : (data.map ScatterPoint.intensity).sum = 0
  · rw [if_pos h0, if_pos h0]
  · rw [if_neg h0, if_neg h0]
    rw [energyLoop_eq]
    simp

/-- C5 (amended: the returned values are `countX · step` rounded to four
decimal places, not `countX · step` exactly): on zero total the result is
`{0,0,0}`; otherwise the samples are sorted by intensity descending, the
running sum is accumulated, `countX` is the first 1-based index at which
`runningSum/total` reaches `X/100` (the 99 % short-circuit does not change
the recorded counts), and `eX = round4(countX · step)`. -/
theorem energyConcentration_spec (data : List ScatterPoint) (step : ℝ) :
    (calculateEnergyConcentration data step =
      if (data.map ScatterPoint.intensity).sum = 0 then ⟨0, 0, 0⟩
      else
        ⟨toFixed4 (firstCross ((data.map ScatterPoint.intensity).sum) 0.50
            ((data.mergeSort fun p q => decide (q.intensity ≤ p.intensity)).map
              ScatterPoint.intensity) 0 0 * step),
          toFixed4 (firstCross ((data.map ScatterPoint.intensity).sum) 0.90
            ((data.mergeSort fun p q => decide (q.intensity ≤ p.intensity)).map
              ScatterPoint.intensity) 0 0 * step),
          toFixed4 (firstCross ((data.map ScatterPoint.intensity).sum) 0.99
            ((data.mergeSort fun p q => decide (q.intensity ≤ p.intensity)).map
              ScatterPoint.intensity) 0 0 * step)⟩) ∧
    List.Perm (data.mergeSort fun p q => decide (q.intensity ≤ p.intensity))
      data ∧
    List.Sorted (fun p q : ScatterPoint => q.intensity ≤ p.intensity)
      (data.mergeSort fun p q => decide (q.intensity ≤ p.intensity)) := by
  refine ⟨calcEnergy_eq data step, List.mergeSort_perm data _, ?_⟩
  have hs := @List.sorted_mergeSort ScatterPoint
    (fun p q : ScatterPoint => decide (q.intensity ≤ p.intensity))
    (fun a b c hab hbc => by
      simp only [decide_eq_true_eq] at *
      linarith)
    (fun a b => by
      simp only [Bool.or_eq_true, decide_eq_true_eq]
      exact le_total b.intensity a.intensity)
    data
  exact hs.imp fun h => by simpa using h

/-- Counterexample to C5 as stated: with `step = 0.00003` and the single
sample `⟨0, 1⟩`, the count for every threshold is `1`, but the function
returns `e50 = 0` (the four-decimal rounding of `1 · 0.00003`), not
`1 · 0.00003`. -/
theorem energyConcentration_round_cx :
    (calculateEnergyConcentration [⟨0, 1⟩] 0.00003).e50 = 0 ∧
    firstCross ((([⟨0, 1⟩] : List ScatterPoint).map ScatterPoint.intensity).sum)
      0.50 ((([⟨0, 1⟩] : List ScatterPoint).mergeSort
          fun p q => decide (q.intensity ≤ p.intensity)).map
        ScatterPoint.intensity) 0 0 = 1 ∧
    (1 : ℝ) * 0.00003 ≠ 0 := by
  have hsum : (([⟨0, 1⟩] : List ScatterPoint).map ScatterPoint.intensity).sum
      = 1 := by simp
  have hms : (([⟨0, 1⟩] : List ScatterPoint).mergeSort
      fun p q => decide (q.intensity ≤ p.intensity)) = [⟨0, 1⟩] :=
    List.perm_singleton.mp (List.mergeSort_perm _ _)
  have hfc : firstCross
      ((([⟨0, 1⟩] : List ScatterPoint).map ScatterPoint.intensity).sum) 0.50
      ((([⟨0, 1⟩] : List ScatterPoint).mergeSort
          fun p q => decide (q.intensity ≤ p.intensity)).map
        ScatterPoint.intensity) 0 0 = 1 := by
    rw [hsum, hms]
    simp only [List.map_cons, List.map_nil, firstCross]
    rw [if_pos (by norm_num : (0.50 : ℝ) ≤ (0 + 1) / 1)]
  refine ⟨?_, hfc, by norm_num⟩
  rw [calcEnergy_eq]
  rw [if_neg (by rw [hsum]; norm_num)]
  show toFixed4 (firstCross _ 0.50 _ 0 0 * 0.00003) = 0
  rw [hfc]
  rw [toFixed4_val 0 (by norm_num) (by norm_num)]
  norm_num

/-! Auxiliary facts about `firstCross` for the C6 invariant. -/

theorem firstCross_lower (total x : ℝ) :
    ∀ (l : List ℝ) (s : ℝ) (i : ℕ), firstCross total x l s i ≠ 0 →
      i + 1 ≤ firstCross total x l s i := by
  intro l
  induction l with
  | nil => intro s i h; simp [firstCross] at h
  | cons y ys ih =>
      intro s i h
      rw [firstCross] at h ⊢
      split_ifs with hc
      · omega
      · rw [if_neg hc] at h
        have := ih (s + y) (i + 1) h
        omega

theorem firstCross_mono (total : ℝ) {x y : ℝ} (hxy : x ≤ y) :
    ∀ (l : List ℝ) (s : ℝ) (i : ℕ), firstCross total y l s i ≠ 0 →
      firstCross total x l s i ≤ firstCross total y l s i := by
  intro l
  induction l with
  | nil => intro s i h; simp [firstCross] at h
  | cons z zs ih =>
      intro s i h
      rw [firstCross] at h
      rw [firstCross, firstCross]
      by_cases hcy : y ≤ (s + z) / total
      · rw [if_pos hcy]
        rw [if_pos (le_trans hxy hcy)]
      · rw [if_neg hcy] at h ⊢
        by_cases hcx : x ≤ (s + z) / total
        · rw [if_pos hcx]
          have := firstCross_lower total y zs (s + z) (i + 1) h
          omega
        · rw [if_neg hcx]
          exact ih (s + z) (i + 1) h

theorem firstCross_ne_zero (total x : ℝ) :
    ∀ (l : List ℝ) (s : ℝ) (i : ℕ), l ≠ [] →
      x ≤ (s + l.sum) / total → firstCross total x l s i ≠ 0 := by
  intro l
  induction l with
  | nil => intro s i h; exact absurd rfl h
  | cons y ys ih =>
      intro s i _ hx
      rw [firstCross]
      by_cases hc : x ≤ (s + y) / total
      · rw [if_pos hc]; omega
      · rw [if_neg hc]
        rcases List.eq_nil_or_concat ys with hnil | _
        · subst hnil
          simp only [List.sum_cons, List.sum_nil, add_zero] at hx
          exact absurd hx hc
        · apply ih (s + y) (i + 1) (by
            rintro rfl
            simp only [List.sum_cons, List.sum_nil, add_zero] at hx
            exact hc hx)
          have : s + (y :: ys).sum = s + y + ys.sum := by
            rw [List.sum_cons]; ring
          rw [← this]
          exact hx

/-- C6: for any distribution with positive total intensity and positive
`step`, the energy-concentration statistics are non-negative and satisfy
`e50 ≤ e90 ≤ e99`. -/
theorem energyStats_monotone (data : List ScatterPoint) (step : ℝ)
    (htotal : 0 < (data.map ScatterPoint.intensity).sum) (hstep : 0 < step) :
    0 ≤ (calculateEnergyConcentration data step).e50 ∧
    (calculateEnergyConcentration data step).e50 ≤
      (calculateEnergyConcentration data step).e90 ∧
    (calculateEnergyConcentration data step).e90 ≤
      (calculateEnergyConcentration data step).e99 := by
  have hne : (data.map ScatterPoint.intensity).sum ≠ 0 := ne_of_gt htotal
  have hdata : data ≠ [] := by
    rintro rfl
    simp at htotal
  have hperm : List.Perm ((data.mergeSort fun p q =>
      decide (q.intensity ≤ p.intensity)).map ScatterPoint.intensity)
      (data.map ScatterPoint.intensity) :=
    (List.mergeSort_perm data _).map ScatterPoint.intensity
  have hsum : ((data.mergeSort fun p q =>
      decide (q.intensity ≤ p.intensity)).map ScatterPoint.intensity).sum =
      (data.map ScatterPoint.intensity).sum := hperm.sum_eq
  have hnil : ((data.mergeSort fun p q =>
      decide (q.intensity ≤ p.intensity)).map ScatterPoint.intensity) ≠ [] := by
    intro h
    rw [List.map_eq_nil] at h
    have hlen : data.length = 0 := by
      rw [← (List.mergeSort_perm data fun p q =>
        decide (q.intensity ≤ p.intensity)).length_eq, h]
      rfl
    exact hdata (List.eq_nil_of_length_eq_zero hlen)
  have hratio : ∀ x : ℝ, x ≤ 1 →
      x ≤ (0 + ((data.mergeSort fun p q =>
        decide (q.intensity ≤ p.intensity)).map ScatterPoint.intensity).sum) /
        (data.map ScatterPoint.intensity).sum := by
    intro x hx
    rw [hsum, zero_add, div_self hne]
    exact hx
  have h99ne := firstCross_ne_zero ((data.map ScatterPoint.intensity).sum) 0.99
    _ 0 0 hnil (hratio _ (by norm_num))
  have h90ne := firstCross_ne_zero ((data.map ScatterPoint.intensity).sum) 0.90
    _ 0 0 hnil (hratio _ (by norm_num))
  have h5090 := firstCross_mono ((data.map ScatterPoint.intensity).sum)
    (by norm_num : (0.50 : ℝ) ≤ 0.90) _ 0 0 h90ne
  have h9099 := firstCross_mono ((data.map ScatterPoint.intensity).sum)
    (by norm_num : (0.90 : ℝ) ≤ 0.99) _ 0 0 h99ne
  rw [calcEnergy_eq, if_neg hne]
  refine ⟨?_, ?_, ?_⟩
  · exact toFixed4_nonneg (by positivity)
  · apply toFixed4_mono
    have : ((firstCross ((data.map ScatterPoint.intensity).sum) 0.50
        ((data.mergeSort fun p q => decide (q.intensity ≤ p.intensity)).map
          ScatterPoint.intensity) 0 0 : ℕ) : ℝ) ≤
        ((firstCross ((data.map ScatterPoint.intensity).sum) 0.90
        ((data.mergeSort fun p q => decide (q.intensity ≤ p.intensity)).map
          ScatterPoint.intensity) 0 0 : ℕ) : ℝ) := by
      exact_mod_cast h5090
    exact mul_le_mul_of_nonneg_right this hstep.le
  · apply toFixed4_mono
    have : ((firstCross ((data.map ScatterPoint.intensity).sum) 0.90
        ((data.mergeSort fun p q => decide (q.intensity ≤ p.intensity)).map
          ScatterPoint.intensity) 0 0 : ℕ) : ℝ) ≤
        ((firstCross ((data.map ScatterPoint.intensity).sum) 0.99
        ((data.mergeSort fun p q => decide (q.intensity ≤ p.intensity)).map
          ScatterPoint.intensity) 0 0 : ℕ) : ℝ) := by
      exact_mod_cast h9099
    exact mul_le_mul_of_nonneg_right this hstep.le

/-- Witness for C6 at the singleton distribution `[⟨0, 1⟩]`, `step = 1`. -/
theorem energyStats_monotone_witness :
    0 < ((([⟨0, 1⟩] : List ScatterPoint).map ScatterPoint.intensity).sum) ∧
    (0 : ℝ) < 1 ∧
    (0 ≤ (calculateEnergyConcentration [⟨0, 1⟩] 1).e50 ∧
      (calculateEnergyConcentration [⟨0, 1⟩] 1).e50 ≤
        (calculateEnergyConcentration [⟨0, 1⟩] 1).e90 ∧
      (calculateEnergyConcentration [⟨0, 1⟩] 1).e90 ≤
        (calculateEnergyConcentration [⟨0, 1⟩] 1).e99) :=
  ⟨by simp, by norm_num,
    energyStats_monotone [⟨0, 1⟩] 1 (by simp) (by norm_num)⟩

/-! ## Claim C8: the 3×3 box blur of `generateSurfaceProfile3D` -/

/-- The smoothed grid of `generateSurfaceProfile3D` really is `smoothedCell`
of the raw grid, cell by cell. -/
theorem profile3D_cell (ra : ℝ) (size : ℕ) (rnd : ℕ → ℕ → ℝ) (i j : ℕ)
    (hi : i < size) (hj : j < size) :
    ((generateSurfaceProfile3D ra size rnd).getD i []).getD j 0 =
      smoothedCell size (fun x y => rawGrid3D ra rnd x.toNat y.toNat) i j := by
  have hrow : (generateSurfaceProfile3D ra size rnd).getD i [] =
      (List.range size).map fun j : ℕ =>
        smoothedCell size (fun x y => rawGrid3D ra rnd x.toNat y.toNat)
          (i : ℤ) (j : ℤ) := by
    unfold generateSurfaceProfile3D
    rw [List.getD_eq_getElem _ _ (by simpa using hi)]
    simp only [List.getElem_map, List.getElem_range]
  rw [hrow, List.getD_eq_getElem _ _ (by simpa using hj)]
  simp only [List.getElem_map, List.getElem_range]

theorem flatMap_inner_pos (i j N a : ℤ) (hP : 0 ≤ i + a ∧ i + a < N)
    (l2 : List ℤ) :
    (l2.flatMap fun dj =>
      if 0 ≤ i + a ∧ i + a < N ∧ 0 ≤ j + dj ∧ j + dj < N
      then [(i + a, j + dj)] else []) =
    (l2.filter fun dj => decide (0 ≤ j + dj ∧ j + dj < N)).map
      fun dj => (i + a, j + dj) := by
  induction l2 with
  | nil => rfl
  | cons b l2 ih =>
      rw [List.flatMap_cons, List.filter_cons, ih]
      by_cases hQ : 0 ≤ j + b ∧ j + b < N
      · rw [if_pos ⟨hP.1, hP.2, hQ.1, hQ.2⟩, decide_eq_true hQ]
        rfl
      · rw [if_neg (fun h => hQ ⟨h.2.2.1, h.2.2.2⟩), decide_eq_false hQ]
        rfl

theorem flatMap_inner_neg (i j N a : ℤ) (hP : ¬ (0 ≤ i + a ∧ i + a < N))
    (l2 : List ℤ) :
    (l2.flatMap fun dj =>
      if 0 ≤ i + a ∧ i + a < N ∧ 0 ≤ j + dj ∧ j + dj < N
      then [(i + a, j + dj)] else []) = [] := by
  induction l2 with
  | nil => rfl
  | cons b l2 ih =>
      rw [List.flatMap_cons, ih, if_neg (fun h => hP ⟨h.1, h.2.1⟩)]
      rfl

theorem flatMap_outer (i j N : ℤ) (l1 l2 : List ℤ) :
    (l1.flatMap fun di => l2.flatMap fun dj =>
      if 0 ≤ i + di ∧ i + di < N ∧ 0 ≤ j + dj ∧ j + dj < N
      then [(i + di, j + dj)] else []) =
    (l1.filter fun di => decide (0 ≤ i + di ∧ i + di < N)).flatMap
      fun di =>
        (l2.filter fun dj => decide (0 ≤ j + dj ∧ j + dj < N)).map
          fun dj => (i + di, j + dj) := by
  induction l1 with
  | nil => rfl
  | cons a l1 ih =>
      rw [List.flatMap_cons, List.filter_cons, ih]
      by_cases hP : 0 ≤ i + a ∧ i + a < N
      · rw [decide_eq_true hP, flatMap_inner_pos i j N a hP l2]
        rfl
      · rw [decide_eq_false hP, flatMap_inner_neg i j N a hP l2]
        rfl

/-- The 3×3 window factorizes into an axis-wise product of valid offsets. -/
theorem cellNbrs_split (size : ℕ) (i j : ℤ) :
    cellNbrs size i j =
      (([-1, 0, 1] : List ℤ).filter
          fun di => decide (0 ≤ i + di ∧ i + di < (size : ℤ))).flatMap
        fun di =>
          (([-1, 0, 1] : List ℤ).filter
              fun dj => decide (0 ≤ j + dj ∧ j + dj < (size : ℤ))).map
            fun dj => (i + di, j + dj) :=
  flatMap_outer i j (size : ℤ) _ _

theorem filter_offsets_left {N : ℤ} (hN : 2 ≤ N) :
    (([-1, 0, 1] : List ℤ).filter
      fun d => decide (0 ≤ 0 + d ∧ 0 + d < N)) = [0, 1] := by
  simp only [List.filter_cons, List.filter_nil]
  rw [decide_eq_false (by omega), decide_eq_true (by omega),
    decide_eq_true (by omega)]
  rfl

theorem filter_offsets_right {N : ℤ} (hN : 2 ≤ N) :
    (([-1, 0, 1] : List ℤ).filter
      fun d => decide (0 ≤ N - 1 + d ∧ N - 1 + d < N)) = [-1, 0] := by
  simp only [List.filter_cons, List.filter_nil]
  rw [decide_eq_true (by omega), decide_eq_true (by omega),
    decide_eq_false (by omega)]
  rfl

theorem filter_offsets_mid {N i : ℤ} (h1 : 0 < i) (h2 : i < N - 1) :
    (([-1, 0, 1] : List ℤ).filter
      fun d => decide (0 ≤ i + d ∧ i + d < N)) = [-1, 0, 1] := by
  simp only [List.filter_cons, List.filter_nil]
  rw [decide_eq_true (by omega), decide_eq_true (by omega),
    decide_eq_true (by omega)]
  rfl

/-- C8 (amended: for grids of size at least 2; a 1×1 grid's single cell
averages only itself): each smoothed cell is the arithmetic mean of the raw
cell and its in-bounds 3×3 neighbors with truncated boundaries — corner
cells average exactly 4 raw cells, edge cells exactly 6, interior cells
exactly 9. -/
theorem surfaceSmoothing_spec (size : ℕ) (g : ℤ → ℤ → ℝ) (hsize : 2 ≤ size) :
    (cellNbrs size 0 0 = [(0, 0), (0, 1), (1, 0), (1, 1)] ∧
      smoothedCell size g 0 0 = (g 0 0 + g 0 1 + g 1 0 + g 1 1) / 4) ∧
    (∀ i j : ℤ, (i = 0 ∨ i = (size : ℤ) - 1) → (j = 0 ∨ j = (size : ℤ) - 1) →
      (cellNbrs size i j).length = 4 ∧
      smoothedCell size g i j =
        ((cellNbrs size i j).map fun p => g p.1 p.2).sum / 4) ∧
    (∀ i j : ℤ, (i = 0 ∨ i = (size : ℤ) - 1) → 0 < j → j < (size : ℤ) - 1 →
      (cellNbrs size i j).length = 6 ∧
      smoothedCell size g i j =
        ((cellNbrs size i j).map fun p => g p.1 p.2).sum / 6) ∧
    (∀ i j : ℤ, 0 < i → i < (size : ℤ) - 1 → (j = 0 ∨ j = (size : ℤ) - 1) →
      (cellNbrs size i j).length = 6 ∧
      smoothedCell size g i j =
        ((cellNbrs size i j).map fun p => g p.1 p.2).sum / 6) ∧
    (∀ i j : ℤ, 0 < i → i < (size : ℤ) - 1 → 0 < j → j < (size : ℤ) - 1 →
      (cellNbrs size i j).length = 9 ∧
      smoothedCell size g i j =
        (g (i - 1) (j - 1) + g (i - 1) j + g (i - 1) (j + 1) +
         g i (j - 1) + g i j + g i (j + 1) +
         g (i + 1) (j - 1) + g (i + 1) j + g (i + 1) (j + 1)) / 9) ∧
    (∀ (ra : ℝ) (rnd : ℕ → ℕ → ℝ) (i j : ℕ), i < size → j < size →
      ((generateSurfaceProfile3D ra size rnd).getD i []).getD j 0 =
        smoothedCell size (fun x y => rawGrid3D ra rnd x.toNat y.toNat)
          (i : ℤ) (j : ℤ)) := by
  have hlen : ∀ i j : ℤ, ∀ n : ℕ, (cellNbrs size i j).length = n →
      smoothedCell size g i j =
        ((cellNbrs size i j).map fun p => g p.1 p.2).sum / n := by
    intro i j n hn
    unfold smoothedCell
    rw [hn]
  have hN : 2 ≤ (size : ℤ) := by omega
  refine ⟨?_, ?_, ?_, ?_, ?_, fun ra rnd i j hi hj =>
    profile3D_cell ra size rnd i j hi hj⟩
  · have hc : cellNbrs size 0 0 = [(0, 0), (0, 1), (1, 0), (1, 1)] := by
      rw [cellNbrs_split, filter_offsets_left hN]
      decide
    refine ⟨hc, ?_⟩
    rw [hlen 0 0 4 (by rw [hc]; rfl), hc]
    simp only [List.map_cons, List.map_nil, List.sum_cons, List.sum_nil]
    ring
  · intro i j hi hj
    have hl : (cellNbrs size i j).length = 4 := by
      rcases hi with rfl | rfl <;> rcases hj with rfl | rfl
      · rw [cellNbrs_split, filter_offsets_left hN]
        rfl
      · rw [cellNbrs_split, filter_offsets_left hN, filter_offsets_right hN]
        rfl
      · rw [cellNbrs_split, filter_offsets_right hN, filter_offsets_left hN]
        rfl
      · rw [cellNbrs_split, filter_offsets_right hN]
        rfl
    exact ⟨hl, hlen i j 4 hl⟩
  · intro i j hi hj1 hj2
    have hl : (cellNbrs size i j).length = 6 := by
      rcases hi with rfl | rfl
      · rw [cellNbrs_split, filter_offsets_left hN, filter_offsets_mid hj1 hj2]
        rfl
      · rw [cellNbrs_split, filter_offsets_right hN,
          filter_offsets_mid hj1 hj2]
        rfl
    exact ⟨hl, hlen i j 6 hl⟩
  · intro i j hi1 hi2 hj
    have hl : (cellNbrs size i j).length = 6 := by
      rcases hj with rfl | rfl
      · rw [cellNbrs_split, filter_offsets_mid hi1 hi2, filter_offsets_left hN]
        rfl
      · rw [cellNbrs_split, filter_offsets_mid hi1 hi2,
          filter_offsets_right hN]
        rfl
    exact ⟨hl, hlen i j 6 hl⟩
  · intro i j hi1 hi2 hj1 hj2
    have hc : cellNbrs size i j =
        [(i + -1, j + -1), (i + -1, j + 0), (i + -1, j + 1),
         (i + 0, j + -1), (i + 0, j + 0), (i + 0, j + 1),
         (i + 1, j + -1), (i + 1, j + 0), (i + 1, j + 1)] := by
      rw [cellNbrs_split, filter_offsets_mid hi1 hi2,
        filter_offsets_mid hj1 hj2]
      rfl
    have hl : (cellNbrs size i j).length = 9 := by rw [hc]; rfl
    refine ⟨hl, ?_⟩
    rw [hlen i j 9 hl, hc]
    simp only [List.map_cons, List.map_nil, List.sum_cons, List.sum_nil]
    rw [show i + -1 = i - 1 by ring, show j + -1 = j - 1 by ring,
      show i + 0 = i by ring, show j + 0 = j by ring]
    ring

/-- Witness for C8: on a 3×3 grid the corner `(0,0)` of the all-ones field
averages exactly the four cells `(0,0), (0,1), (1,0), (1,1)`. -/
theorem surfaceSmoothing_spec_witness :
    2 ≤ 3 ∧
      (cellNbrs 3 0 0 = [(0, 0), (0, 1), (1, 0), (1, 1)] ∧
        smoothedCell 3 (fun _ _ => (1 : ℝ)) 0 0 = (1 + 1 + 1 + 1) / 4) :=
  ⟨by norm_num, (surfaceSmoothing_spec 3 (fun _ _ => (1 : ℝ)) (by norm_num)).1⟩

/-- Counterexample to C8 as stated ("for every size > 0 grid"): in a 1×1
grid the unique cell is a corner (both its coordinates are `0` and
`size − 1`), but its smoothed value averages exactly 1 raw cell, not 4. -/
theorem surfaceSmoothing_size_one_cx :
    ((0 : ℤ) = 0 ∨ (0 : ℤ) = (1 : ℕ) - 1) ∧
    cellNbrs 1 0 0 = [(0, 0)] ∧
    (cellNbrs 1 0 0).length ≠ 4 ∧
    smoothedCell 1 (fun x y => x + y + 5) 0 0 = 5 := by
  have hc : cellNbrs 1 0 0 = [(0, 0)] := by decide
  refine ⟨Or.inl rfl, hc, by rw [hc]; decide, ?_⟩
  unfold smoothedCell
  rw [hc]
  norm_num

/-! ## Claim C7: end-to-end Harvey-Shack scenario -/

/-- The raw Harvey-Shack intensity of the C7 scenario
(`ra = 0.8, λ = 0.5, θ = 0, slopeFactor = 1`). -/
noncomputable def hsScenario (a : ℝ) : ℝ :=
  Real.exp (-gParam 0.8 0.5 0) * Real.exp (-(|a| / 1.5) ^ 2) +
    (1 - Real.exp (-gParam 0.8 0.5 0)) * Real.cos (a * π / 180) ^ (1.5 : ℝ) * 0.3

theorem hsScenario_eq (a : ℝ) :
    rawIntensity 0.8 0.5 0 "Harvey-Shack" 1 1 a = hsScenario a := by
  unfold rawIntensity hsScenario
  rw [if_neg (by decide), if_neg (by decide)]
  norm_num

theorem gParam_scenario_pos : 0 < gParam 0.8 0.5 0 := by
  rw [gParam_def, show (0 : ℝ) * π / 180 = 0 by ring, Real.cos_zero,
    max_eq_right (by norm_num : (0.0001 : ℝ) ≤ 0.5)]
  have he : (4 * π * (0.8 * 1.25) * 1 / 0.5) ^ 2 = π ^ 2 * 64 := by ring
  rw [he]
  positivity

theorem hsScenario_exp_lt : Real.exp (-gParam 0.8 0.5 0) < 1 :=
  Real.exp_lt_one_iff.mpr (by linarith [gParam_scenario_pos])

theorem hsScenario_pos {a : ℝ} (h1 : -90 ≤ a) (h2 : a ≤ 90) :
    0 < hsScenario a := by
  unfold hsScenario
  have hpi := pi_pos
  have hc : 0 ≤ Real.cos (a * π / 180) := by
    apply Real.cos_nonneg_of_neg_pi_div_two_le_of_le
    · nlinarith
    · nlinarith
  have h3 : 0 ≤ Real.cos (a * π / 180) ^ (1.5 : ℝ) := Real.rpow_nonneg hc _
  have h4 := hsScenario_exp_lt
  have h5 : 0 < Real.exp (-gParam 0.8 0.5 0) * Real.exp (-(|a| / 1.5) ^ 2) := by
    positivity
  have h6 : 0 ≤ (1 - Real.exp (-gParam 0.8 0.5 0)) *
      Real.cos (a * π / 180) ^ (1.5 : ℝ) * 0.3 := by
    apply mul_nonneg (mul_nonneg (by linarith) h3)
    norm_num
  linarith

theorem hsScenario_strict_anti {x y : ℝ} (hx : 0 ≤ x) (hxy : x < y)
    (hy : y ≤ 90) : hsScenario y < hsScenario x := by
  unfold hsScenario
  have hpi := pi_pos
  rw [abs_of_nonneg hx, abs_of_nonneg (by linarith : (0 : ℝ) ≤ y)]
  have hexp : Real.exp (-(y / 1.5) ^ 2) < Real.exp (-(x / 1.5) ^ 2) := by
    apply Real.exp_lt_exp.mpr
    have hdiv : x / 1.5 < y / 1.5 := (div_lt_div_right (by norm_num)).mpr hxy
    have hsq : (x / 1.5) ^ 2 < (y / 1.5) ^ 2 :=
      pow_lt_pow_left hdiv (div_nonneg hx (by norm_num)) (by norm_num)
    linarith
  have hcos : Real.cos (y * π / 180) ≤ Real.cos (x * π / 180) := by
    apply Real.cos_le_cos_of_nonneg_of_le_pi
    · exact div_nonneg (mul_nonneg hx hpi.le) (by norm_num)
    · nlinarith
    · nlinarith
  have hcosy0 : 0 ≤ Real.cos (y * π / 180) := by
    apply Real.cos_nonneg_of_neg_pi_div_two_le_of_le
    · nlinarith
    · nlinarith
  have hrpow : Real.cos (y * π / 180) ^ (1.5 : ℝ) ≤
      Real.cos (x * π / 180) ^ (1.5 : ℝ) :=
    Real.rpow_le_rpow hcosy0 hcos (by norm_num)
  have hE : 0 < Real.exp (-gParam 0.8 0.5 0) := Real.exp_pos _
  have hC : 0 ≤ 1 - Real.exp (-gParam 0.8 0.5 0) := by
    linarith [hsScenario_exp_lt]
  have t1 : Real.exp (-gParam 0.8 0.5 0) * Real.exp (-(y / 1.5) ^ 2) <
      Real.exp (-gParam 0.8 0.5 0) * Real.exp (-(x / 1.5) ^ 2) :=
    mul_lt_mul_of_pos_left hexp hE
  have t2 : (1 - Real.exp (-gParam 0.8 0.5 0)) *
      Real.cos (y * π / 180) ^ (1.5 : ℝ) * 0.3 ≤
      (1 - Real.exp (-gParam 0.8 0.5 0)) *
      Real.cos (x * π / 180) ^ (1.5 : ℝ) * 0.3 := by
    apply mul_le_mul_of_nonneg_right _ (by norm_num)
    exact mul_le_mul_of_nonneg_left hrpow hC
  linarith

theorem hsScenario_even (a : ℝ) : hsScenario (-a) = hsScenario a := by
  unfold hsScenario
  rw [abs_neg, show -a * π / 180 = -(a * π / 180) by ring, Real.cos_neg]

theorem hsScenario_lt_peak {a : ℝ} (h1 : -90 ≤ a) (h2 : a ≤ 90) (ha : a ≠ 0) :
    hsScenario a < hsScenario 0 := by
  have habs : 0 < |a| := abs_pos.mpr ha
  have habs90 : |a| ≤ 90 := abs_le.mpr ⟨h1, h2⟩
  have h := hsScenario_strict_anti le_rfl habs habs90
  rcases abs_choice a with he | he
  · rwa [he] at h
  · rw [he] at h
    rwa [hsScenario_even] at h

theorem hsScenario_max :
    listMax0 (rawIntensities 0.8 0.5 0 "Harvey-Shack" 1 1) = hsScenario 0 := by
  have hres : resolveModel "Harvey-Shack" (gParam 0.8 0.5 0) = "Harvey-Shack" := by
    unfold resolveModel
    rw [if_neg (by decide)]
  have hlist : rawIntensities 0.8 0.5 0 "Harvey-Shack" 1 1 =
      (sweepAngles 1).map fun a => max 0 (hsScenario a) := by
    unfold rawIntensities
    rw [hres]
    apply List.map_congr_left
    intro a _
    rw [hsScenario_eq]
  rw [hlist]
  apply le_antisymm
  · rcases listMax0_eq_zero_or_mem
      ((sweepAngles 1).map fun a => max 0 (hsScenario a)) with h | h
    · rw [h]
      exact (hsScenario_pos (by norm_num) (by norm_num)).le
    · rw [List.mem_map] at h
      obtain ⟨a, ha, hval⟩ := h
      obtain ⟨h1, h2⟩ := sweepAngles_mem_bounds (by norm_num) ha
      rw [← hval]
      apply max_le (hsScenario_pos (by norm_num) (by norm_num)).le
      rcases eq_or_ne a 0 with rfl | hne
      · exact le_rfl
      · exact (hsScenario_lt_peak h1 h2 hne).le
  · have h0mem : (0 : ℝ) ∈ sweepAngles 1 := by
      unfold sweepAngles
      rw [List.mem_map]
      refine ⟨90, ?_, by norm_num⟩
      rw [List.mem_range, show (180 : ℝ) / 1 = 180 by norm_num, Nat.floor_ofNat]
      norm_num
    have hmem : max 0 (hsScenario 0) ∈
        (sweepAngles 1).map fun a => max 0 (hsScenario a) :=
      List.mem_map_of_mem _ h0mem
    have hle := le_listMax0 hmem
    rwa [max_eq_right (hsScenario_pos (by norm_num) (by norm_num)).le] at hle

/-- C7: with `ra = 0.8, λ = 0.5, θ = 0, modelType = Harvey-Shack, step = 1,
reflectivity = 0.9, slopeFactor = 1`, the distribution has exactly 181
samples at the integer angles `-90 .. 90`, the peak intensity `0.9` sits at
angle `0` (sample index 90), every other sample is strictly below `0.9`, and
intensity strictly decreases moving away from angle `0` in both directions. -/
theorem harveyShack_scenario :
    (calculateScattering 0.8 0.5 0 "Harvey-Shack" 1 0.9 1).length = 181 ∧
    (∀ k (hk : k < (calculateScattering 0.8 0.5 0 "Harvey-Shack" 1 0.9 1).length),
      ((calculateScattering 0.8 0.5 0 "Harvey-Shack" 1 0.9 1).get
        ⟨k, hk⟩).angle = (k : ℝ) - 90) ∧
    (∀ h90 : 90 < (calculateScattering 0.8 0.5 0 "Harvey-Shack" 1 0.9 1).length,
      (calculateScattering 0.8 0.5 0 "Harvey-Shack" 1 0.9 1).get ⟨90, h90⟩ =
        ⟨0, 0.9⟩) ∧
    (∀ k (hk : k < (calculateScattering 0.8 0.5 0 "Harvey-Shack" 1 0.9 1).length),
      k ≠ 90 →
      ((calculateScattering 0.8 0.5 0 "Harvey-Shack" 1 0.9 1).get
        ⟨k, hk⟩).intensity < 0.9) ∧
    (∀ k (hk : k + 1 < (calculateScattering 0.8 0.5 0 "Harvey-Shack" 1 0.9 1).length),
      90 ≤ k →
      ((calculateScattering 0.8 0.5 0 "Harvey-Shack" 1 0.9 1).get
        ⟨k + 1, hk⟩).intensity <
      ((calculateScattering 0.8 0.5 0 "Harvey-Shack" 1 0.9 1).get
        ⟨k, Nat.lt_of_succ_lt hk⟩).intensity) ∧
    (∀ k (hk : k + 1 < (calculateScattering 0.8 0.5 0 "Harvey-Shack" 1 0.9 1).length),
      k + 1 ≤ 90 →
      ((calculateScattering 0.8 0.5 0 "Harvey-Shack" 1 0.9 1).get
        ⟨k, Nat.lt_of_succ_lt hk⟩).intensity <
      ((calculateScattering 0.8 0.5 0 "Harvey-Shack" 1 0.9 1).get
        ⟨k + 1, hk⟩).intensity) := by
  have hpeak : 0 < hsScenario 0 := hsScenario_pos (by norm_num) (by norm_num)
  have hM := hsScenario_max
  have hMne : listMax0 (rawIntensities 0.8 0.5 0 "Harvey-Shack" 1 1) ≠ 0 := by
    rw [hM]
    exact ne_of_gt hpeak
  have hfl : ⌊(180 : ℝ) / 1⌋₊ = 180 := by
    rw [show (180 : ℝ) / 1 = 180 by norm_num, Nat.floor_ofNat]
  have hlen : (calculateScattering 0.8 0.5 0 "Harvey-Shack" 1 0.9 1).length =
      181 := by
    rw [calculateScattering_eq, List.length_map, sweepAngles_length, hfl]
  have hres : resolveModel "Harvey-Shack" (gParam 0.8 0.5 0) = "Harvey-Shack" := by
    unfold resolveModel
    rw [if_neg (by decide)]
  have hang : ∀ k : ℕ, toFixed4 (-90 + (k : ℝ) * 1) = (k : ℝ) - 90 := by
    intro k
    have he : (-90 : ℝ) + (k : ℝ) * 1 = (((k : ℤ) - 90 : ℤ) : ℝ) := by
      push_cast
      ring
    rw [he, toFixed4_intCast]
    push_cast
    ring
  have hget : ∀ k (hk : k <
      (calculateScattering 0.8 0.5 0 "Harvey-Shack" 1 0.9 1).length),
      (calculateScattering 0.8 0.5 0 "Harvey-Shack" 1 0.9 1).get ⟨k, hk⟩ =
        ⟨(k : ℝ) - 90, hsScenario ((k : ℝ) - 90) / hsScenario 0 * 0.9⟩ := by
    intro k hk
    have hk' : k < 181 := hlen ▸ hk
    have hq : (calculateScattering 0.8 0.5 0 "Harvey-Shack" 1 0.9 1).get? k =
        some ⟨(k : ℝ) - 90, hsScenario ((k : ℝ) - 90) / hsScenario 0 * 0.9⟩ := by
      rw [calculateScattering_eq, List.get?_map]
      unfold sweepAngles
      rw [List.get?_map, List.get?_range (by rw [hfl]; omega)]
      simp only [Option.map_some']
      congr 1
      rw [hres, hsScenario_eq, hang k, hM, if_neg (ne_of_gt hpeak),
        show (-90 : ℝ) + (k : ℝ) * 1 = (k : ℝ) - 90 by ring]
      have hcl : max 0 (hsScenario ((k : ℝ) - 90)) =
          hsScenario ((k : ℝ) - 90) := by
        apply max_eq_right
        apply le_of_lt
        apply hsScenario_pos
        · have : (0 : ℝ) ≤ (k : ℝ) := Nat.cast_nonneg k
          linarith
        · have : (k : ℝ) ≤ 180 := by exact_mod_cast Nat.le_of_lt_succ hk'
          linarith
      rw [hcl]
    have h2 := List.get?_eq_get hk
    exact Option.some_inj.mp (h2.symm.trans hq)
  have hbounds : ∀ k : ℕ, k ≤ 180 →
      -90 ≤ (k : ℝ) - 90 ∧ (k : ℝ) - 90 ≤ 90 := by
    intro k hk
    have h0 : (0 : ℝ) ≤ (k : ℝ) := Nat.cast_nonneg k
    have h180 : (k : ℝ) ≤ 180 := by exact_mod_cast hk
    constructor <;> linarith
  refine ⟨hlen, ?_, ?_, ?_, ?_, ?_⟩
  · intro k hk
    rw [hget k hk]
  · intro h90
    rw [hget 90 h90]
    have : ((90 : ℕ) : ℝ) - 90 = 0 := by norm_num
    rw [this, div_self (ne_of_gt hpeak), one_mul]
  · intro k hk hk90
    rw [hget k hk]
    show hsScenario ((k : ℝ) - 90) / hsScenario 0 * 0.9 < 0.9
    have hk' : k < 181 := hlen ▸ hk
    obtain ⟨hb1, hb2⟩ := hbounds k (by omega)
    have hne : (k : ℝ) - 90 ≠ 0 := by
      intro h
      apply hk90
      have : (k : ℝ) = 90 := by linarith [sub_eq_zero.mp h]
      exact_mod_cast this
    have hlt := hsScenario_lt_peak hb1 hb2 hne
    calc hsScenario ((k : ℝ) - 90) / hsScenario 0 * 0.9
        < hsScenario 0 / hsScenario 0 * 0.9 := by gcongr
      _ = 0.9 := by rw [div_self (ne_of_gt hpeak), one_mul]
  · intro k hk hk90
    rw [hget (k + 1) hk, hget k (Nat.lt_of_succ_lt hk)]
    show hsScenario (((k + 1 : ℕ) : ℝ) - 90) / hsScenario 0 * 0.9 <
      hsScenario ((k : ℝ) - 90) / hsScenario 0 * 0.9
    have hk' : k + 1 < 181 := hlen ▸ hk
    have hcast : ((k + 1 : ℕ) : ℝ) = (k : ℝ) + 1 := by push_cast; ring
    rw [hcast]
    have h90r : (90 : ℝ) ≤ (k : ℝ) := by exact_mod_cast hk90
    have h180r : (k : ℝ) + 1 ≤ 180 := by
      have : k + 1 ≤ 180 := by omega
      exact_mod_cast this
    have hstep : hsScenario ((k : ℝ) + 1 - 90) < hsScenario ((k : ℝ) - 90) :=
      hsScenario_strict_anti (by linarith) (by linarith) (by linarith)
    gcongr
  · intro k hk hk90
    rw [hget (k + 1) hk, hget k (Nat.lt_of_succ_lt hk)]
    show hsScenario ((k : ℝ) - 90) / hsScenario 0 * 0.9 <
      hsScenario (((k + 1 : ℕ) : ℝ) - 90) / hsScenario 0 * 0.9
    have hcast : ((k + 1 : ℕ) : ℝ) = (k : ℝ) + 1 := by push_cast; ring
    rw [hcast]
    have h89r : (k : ℝ) ≤ 89 := by
      have : k ≤ 89 := by omega
      exact_mod_cast this
    have h0r : (0 : ℝ) ≤ (k : ℝ) := Nat.cast_nonneg k
    have he1 : hsScenario ((k : ℝ) - 90) = hsScenario (90 - (k : ℝ)) := by
      rw [show (k : ℝ) - 90 = -(90 - (k : ℝ)) by ring, hsScenario_even]
    have he2 : hsScenario ((k : ℝ) + 1 - 90) = hsScenario (89 - (k : ℝ)) := by
      rw [show (k : ℝ) + 1 - 90 = -(89 - (k : ℝ)) by ring, hsScenario_even]
    rw [he1, he2]
    have hstep : hsScenario (90 - (k : ℝ)) < hsScenario (89 - (k : ℝ)) :=
      hsScenario_strict_anti (by linarith) (by linarith) (by linarith)
    gcongr

/-- Witness for C7: the length really is 181 and sample 90 is the `0.9` peak
at angle `0`. -/
theorem harveyShack_scenario_witness :
    (calculateScattering 0.8 0.5 0 "Harvey-Shack" 1 0.9 1).length = 181 ∧
    (calculateScattering 0.8 0.5 0 "Harvey-Shack" 1 0.9 1).get
      ⟨90, by rw [harveyShack_scenario.1]; norm_num⟩ = ⟨0, 0.9⟩ :=
  ⟨harveyShack_scenario.1, harveyShack_scenario.2.2.1 _⟩

end Reflection
